import Mathlib

/-!
# fyne-doctor: a shallow embedding of `main.go`

Go strings are modelled by Lean strings (valid UTF-8 text) and the functions of
package `strings` work on the character list.  The operating system
(environment, `PATH` lookups, subprocesses) is an oracle `World` whose answers
may depend on the history of interactions; every interaction of the program
with it is appended to an event log, so that "no subprocess is spawned" is a
statement about that log.
-/

namespace FyneDoctor

/-! ## Package `strings` -/

/-- Go `unicode.IsSpace`: the white space characters of `strings.Fields` and
`strings.TrimSpace`. -/
def isSpace (c : Char) : Bool :=
  let n := c.toNat
  (9 ≤ n && n ≤ 13) || n == 32 || n == 0x85 || n == 0xA0 || n == 0x1680 ||
  (0x2000 ≤ n && n ≤ 0x200A) || n == 0x2028 || n == 0x2029 || n == 0x202F ||
  n == 0x205F || n == 0x3000

/-- Go `strings.HasPrefix(s, pre)`. -/
def HasPrefix (s pre : String) : Bool :=
  pre.data.isPrefixOf s.data

/-- Go `strings.TrimPrefix(s, pre)`: `s` without the leading `pre`, or `s`
itself when `s` does not start with `pre`. -/
def TrimPrefix (s pre : String) : String :=
  if HasPrefix s pre then String.mk (s.data.drop pre.data.length) else s

/-- Does `sub` occur in `s` at some position (character lists). -/
def containsChars (sub : List Char) : List Char → Bool
  | [] => sub.isEmpty
  | c :: cs => sub.isPrefixOf (c :: cs) || containsChars sub cs

/-- Go `strings.Contains(s, substr)`. -/
def Contains (s substr : String) : Bool :=
  containsChars substr.data s.data

/-- Go `strings.TrimSpace(s)`: leading and trailing white space removed. -/
def TrimSpace (s : String) : String :=
  String.mk ((s.data.dropWhile isSpace).reverse.dropWhile isSpace).reverse

/-- The loop of `strings.Fields`: `cur` is the field being read, reversed. -/
def fieldsLoop (cur : List Char) : List Char → List (List Char)
  | [] => if cur.isEmpty then [] else [cur.reverse]
  | c :: cs =>
    if isSpace c then
      if cur.isEmpty then fieldsLoop [] cs else cur.reverse :: fieldsLoop [] cs
    else fieldsLoop (c :: cur) cs

/-- Go `strings.Fields(s)`: the maximal runs of non-space characters. -/
def Fields (s : String) : List String :=
  (fieldsLoop [] s.data).map String.mk

/-! ## Data model -/

/-- The struct `Dependency` of `main.go`. -/
structure Dependency where
  Name : String
  Command : String
  Optional : Bool := false
  Status : String := ""
  Version : String := ""
  Description : String := ""
  Platform : String
  Category : String
  Severity : String := ""
  IssueLink : String := ""
  deriving DecidableEq, Repr

/-! ## The operating system -/

/-- One interaction of the program with the operating system. -/
inductive Event where
  /-- The call `os.Getenv(name)`. -/
  | getenv (name : String)
  /-- The call `exec.LookPath(file)`. -/
  | lookPath (file : String)
  /-- A subprocess started by `exec.Command(argv...)` and waited for by `Run` or
  `CombinedOutput`; `duration` is the time the process ran. -/
  | spawn (argv : List String) (duration : Nat)
  deriving DecidableEq, Repr

/-- What waiting for a subprocess gives: the combined standard output and
standard error, whether the returned error is nil, and how long the process ran. -/
structure ExecResult where
  output : String
  ok : Bool
  duration : Nat
  deriving DecidableEq, Repr

/-- The host: `runtime.GOOS` and the answers of the operating system, each as a
function of the events so far. -/
structure World where
  /-- The constant `runtime.GOOS`. -/
  GOOS : String
  /-- The environment: `none` for an unset variable. -/
  env : List Event → String → Option String
  /-- Does `exec.LookPath(file)` return a nil error. -/
  resolves : List Event → String → Bool
  /-- Outcome of `exec.Command(argv...).Run()`; its `output` is discarded. -/
  run : List Event → List String → ExecResult
  /-- Outcome of `exec.Command(argv...).CombinedOutput()`. -/
  combinedOutput : List Event → List String → ExecResult

/-- Go `os.Getenv`: the value of the variable, `""` when it is unset. -/
def Getenv (w : World) (h : List Event) (name : String) : String :=
  (w.env h name).getD ""

/-- The command built in `checkDependency`: `sh -c cmd`, replaced by
`cmd /C cmd` on windows. -/
def shellCommand (w : World) (cmd : String) : List String :=
  if w.GOOS = "windows" then ["cmd", "/C", cmd] else ["sh", "-c", cmd]

/-- Wall-clock time spent waiting for subprocesses in a log. -/
def elapsed : List Event → Nat
  | [] => 0
  | .spawn _ t :: es => t + elapsed es
  | _ :: es => elapsed es

/-! ## `checkDependency` -/

/-- The function `checkDependency(cmd)` of `main.go`, from the history `h`: the
returned `(status, version)` and the history afterwards.  The result is `none`
when the function panics (`strings.Fields(cmd)[0]` on a command without a
field). -/
def checkDependency (w : World) (h : List Event) (cmd : String) :
    Option (String × String) × List Event :=
  -- Handle environment variable checks
  if HasPrefix cmd "echo $" then
    let envVar := TrimPrefix cmd "echo $"
    let value := Getenv w h envVar
    let h1 := h ++ [Event.getenv envVar]
    if value = "" then (some ("Missing", ""), h1)
    else (some ("Installed", value), h1)
  -- Handle pkg-config checks
  else if Contains cmd "pkg-config --exists" then
    let c := shellCommand w cmd
    let r := w.run h c
    let h1 := h ++ [Event.spawn c r.duration]
    if !r.ok then (some ("Missing", ""), h1)
    else (some ("Installed", "Found"), h1)
  -- Handle which command checks
  else if HasPrefix cmd "which " then
    let c := shellCommand w cmd
    let r := w.run h c
    let h1 := h ++ [Event.spawn c r.duration]
    if !r.ok then (some ("Missing", ""), h1)
    else (some ("Installed", "Found"), h1)
  -- Handle complex command chains
  else if Contains cmd "||" || Contains cmd "&&" then
    let c := shellCommand w cmd
    let r := w.combinedOutput h c
    let h1 := h ++ [Event.spawn c r.duration]
    if !r.ok then (some ("Error", ""), h1)
    else
      let result := TrimSpace r.output
      if result = "" then (some ("Missing", ""), h1)
      else (some ("Installed", result), h1)
  -- Regular command checks
  else
    match Fields cmd with
    | [] => (none, h)
    | firstCmd :: _ =>
      let h1 := h ++ [Event.lookPath firstCmd]
      if !w.resolves h firstCmd then (some ("Missing", ""), h1)
      else
        let c := shellCommand w cmd
        let r := w.combinedOutput h1 c
        let h2 := h1 ++ [Event.spawn c r.duration]
        if !r.ok then (some ("Error", ""), h2)
        else (some ("Installed", TrimSpace r.output), h2)

/-! ## `runDoctor`: the check pass -/

/-- The test `d.Platform == "all" || d.Platform == runtime.GOOS` used by
`runDoctor` and `printDependencyTable`. -/
def applicable (goos : String) (d : Dependency) : Bool :=
  d.Platform == "all" || d.Platform == goos

/-- The body of the first loop of `runDoctor` for one entry. -/
def checkEntry (w : World) (h : List Event) (d : Dependency) :
    Option Dependency × List Event :=
  -- Only check dependencies for current platform
  if applicable w.GOOS d then
    match checkDependency w h d.Command with
    | (some (status, version), h1) =>
      (some { d with Status := status, Version := version }, h1)
    | (none, h1) => (none, h1)
  else
    (some { d with Status := "N/A", Version := "Not applicable" }, h)

/-- The first loop of `runDoctor` (`for i := range deps`): the checked list,
or `none` when a call of `checkDependency` panics, and the history afterwards. -/
def checkPass (w : World) (h : List Event) :
    List Dependency → Option (List Dependency) × List Event
  | [] => (some [], h)
  | d :: ds =>
    match checkEntry w h d with
    | (none, h1) => (none, h1)
    | (some d1, h1) =>
      match checkPass w h1 ds with
      | (none, h2) => (none, h2)
      | (some ds1, h2) => (some (d1 :: ds1), h2)

/-! ## `runDoctor`: the diagnosis -/

/-- One step of the diagnosis loop of `runDoctor` on the pair
`(success, missingDeps)`. -/
def diagnosisStep (goos : String) (acc : Bool × List String) (d : Dependency) :
    Bool × List String :=
  if applicable goos d then
    if d.Status != "Installed" && !d.Optional then (false, acc.2 ++ [d.Name])
    else acc
  else acc

/-- The diagnosis loop of `runDoctor`: `success` (the SUCCESS banner is printed
when it is true, the FAILURE banner otherwise) and `missingDeps`. -/
def diagnosis (goos : String) (deps : List Dependency) : Bool × List String :=
  deps.foldl (diagnosisStep goos) (true, [])

/-! ## `getDependencies` -/

/-- The initial value of `baseDeps` in `getDependencies`. -/
def baseDeps : List Dependency :=
  [ { Name := "Go", Command := "go version", Optional := false,
      Description := "Go programming language (minimum version 1.12)",
      Platform := "all", Category := "core", Severity := "critical" },
    { Name := "Fyne CLI", Command := "fyne version", Optional := false,
      Description := "Fyne command line tools",
      Platform := "all", Category := "core", Severity := "critical" },
    { Name := "Fyne-cross", Command := "fyne-cross --version", Optional := true,
      Description := "Cross-platform build tool for Fyne",
      Platform := "all", Category := "core", Severity := "info" } ]

/-- The entries appended in `case "windows"`. -/
def windowsDeps : List Dependency :=
  [ { Name := "C Compiler (MSYS2)", Command := "gcc --version", Optional := false,
      Description := "C compiler for Windows (MSYS2/MingW-w64 recommended)",
      Platform := "windows", Category := "core", Severity := "critical" },
    { Name := "MSYS2", Command := "pacman --version", Optional := false,
      Description := "MSYS2 package manager",
      Platform := "windows", Category := "core", Severity := "critical" } ]

/-- The entries appended in `case "darwin"`. -/
def darwinDeps : List Dependency :=
  [ { Name := "Xcode CLI Tools", Command := "xcode-select -p", Optional := false,
      Description := "Xcode command line tools",
      Platform := "macos", Category := "core", Severity := "critical" },
    { Name := "C Compiler", Command := "clang --version", Optional := false,
      Description := "Clang compiler (comes with Xcode)",
      Platform := "macos", Category := "core", Severity := "critical" } ]

/-- The entries appended in `case "linux"`. -/
def linuxDeps : List Dependency :=
  [ { Name := "C Compiler", Command := "gcc --version", Optional := false,
      Description := "GCC compiler",
      Platform := "linux", Category := "core", Severity := "critical" },
    { Name := "pkg-config", Command := "pkg-config --version", Optional := false,
      Description := "Package configuration tool",
      Platform := "linux", Category := "core", Severity := "critical" },
    { Name := "Mesa GL", Command := "pkg-config --exists gl && echo 'Found'",
      Optional := false, Description := "Mesa OpenGL library",
      Platform := "linux", Category := "core", Severity := "critical" },
    { Name := "X11 Development", Command := "pkg-config --exists x11 && echo 'Found'",
      Optional := false, Description := "X11 development libraries",
      Platform := "linux", Category := "core", Severity := "critical" },
    { Name := "Wayland Support",
      Command := "pkg-config --exists wayland-client && echo 'Found'",
      Optional := true, Description := "Wayland client library (for Wayland support)",
      Platform := "linux", Category := "compatibility", Severity := "warning",
      IssueLink := "https://github.com/fyne-io/fyne/issues/5908" } ]

/-- The mobile development entries. -/
def mobileDeps : List Dependency :=
  [ { Name := "Android SDK", Command := "echo $ANDROID_HOME", Optional := true,
      Description := "Android SDK for mobile development",
      Platform := "all", Category := "mobile", Severity := "info" },
    { Name := "Android NDK", Command := "echo $ANDROID_NDK_HOME", Optional := true,
      Description := "Android NDK for mobile development",
      Platform := "all", Category := "mobile", Severity := "info" },
    { Name := "Android Studio", Command := "which studio || which android-studio",
      Optional := true, Description := "Android Studio IDE (recommended for mobile dev)",
      Platform := "all", Category := "mobile", Severity := "info" },
    { Name := "iOS Simulator", Command := "xcrun simctl list devices", Optional := true,
      Description := "iOS Simulator for iOS development",
      Platform := "darwin", Category := "mobile", Severity := "info" } ]

/-- The web development entries. -/
def webDeps : List Dependency :=
  [ { Name := "WebAssembly Support",
      Command :=
        "go version | grep -q 'go1.16' && echo 'Supported' || echo 'Requires Go 1.16+'",
      Optional := true, Description := "WebAssembly support for web builds",
      Platform := "all", Category := "web", Severity := "info" },
    { Name := "Node.js", Command := "node --version", Optional := true,
      Description := "Node.js for web development tools",
      Platform := "all", Category := "web", Severity := "info" } ]

/-- The performance and compatibility entries. -/
def performanceDeps : List Dependency :=
  [ { Name := "GPU Acceleration",
      Command := "glxinfo | grep 'direct rendering' || echo 'Not available'",
      Optional := true, Description := "GPU acceleration support (Linux)",
      Platform := "linux", Category := "performance", Severity := "warning" },
    { Name := "Display Server", Command := "echo $XDG_SESSION_TYPE", Optional := true,
      Description := "Current display server (X11/Wayland)",
      Platform := "linux", Category := "compatibility", Severity := "info" } ]

/-- The `switch runtime.GOOS` of `getDependencies`: the entries appended for the
host, none when no case matches. -/
def platformDeps (goos : String) : List Dependency :=
  if goos = "windows" then windowsDeps
  else if goos = "darwin" then darwinDeps
  else if goos = "linux" then linuxDeps
  else []

/-- The function `getDependencies()` of `main.go` on a host whose
`runtime.GOOS` is `goos`. -/
def getDependencies (goos : String) : List Dependency :=
  baseDeps ++ platformDeps goos ++ mobileDeps ++ webDeps ++ performanceDeps

/-! ## `printDependencyTable` -/

/-- A Go `map[string]V` as an association list with at most one pair per key. -/
abbrev GoMap (V : Type) := List (String × V)

/-- The assignment `m[k] = v`. -/
def mapSet {V : Type} (k : String) (v : V) : GoMap V → GoMap V
  | [] => [(k, v)]
  | (k1, v1) :: m => if k1 = k then (k, v) :: m else (k1, v1) :: mapSet k v m

/-- The two-valued lookup `v, exists := m[k]`. -/
def mapGet {V : Type} (m : GoMap V) (k : String) : Option V :=
  m.lookup k

/-- What `printDependencyTable` prints, by block. -/
inductive Printed where
  /-- The title line of a category, `## title`, and the three lines that open
  its table. -/
  | header (title : String)
  /-- The table row printed for the entry `d` (its name, optional mark, status,
  version and truncated description). -/
  | row (d : Dependency)
  /-- The line that closes a table. -/
  | footer
  deriving DecidableEq, Repr

/-- The body of the first loop of `printDependencyTable`:
`categories[d.Category] = append(categories[d.Category], d)` for an applicable
entry (a missing key reads as the nil slice). -/
def groupStep (goos : String) (categories : GoMap (List Dependency)) (d : Dependency) :
    GoMap (List Dependency) :=
  if applicable goos d then
    mapSet d.Category (((mapGet categories d.Category).getD []) ++ [d]) categories
  else categories

/-- The first loop of `printDependencyTable`: the applicable entries grouped
by category. -/
def groupByCategory (goos : String) (deps : List Dependency) : GoMap (List Dependency) :=
  deps.foldl (groupStep goos) []

/-- The slice `categoryOrder` of `printDependencyTable`. -/
def categoryOrder : List String :=
  ["core", "mobile", "web", "performance", "compatibility"]

/-- The map `categoryNames` of `printDependencyTable`. -/
def categoryNames : GoMap String :=
  [("core", "Core Dependencies"), ("mobile", "Mobile Development"),
   ("web", "Web Development"), ("performance", "Performance"),
   ("compatibility", "Compatibility")]

/-- The body of the second loop of `printDependencyTable` for the category
`cat`. -/
def printCategory (categories : GoMap (List Dependency)) (cat : String) : List Printed :=
  match mapGet categories cat with
  | some deps =>
    if deps.length > 0 then
      [Printed.header ((mapGet categoryNames cat).getD "")] ++ deps.map Printed.row
        ++ [Printed.footer]
    else []
  | none => []

/-- The function `printDependencyTable(deps)` of `main.go`: what it prints. -/
def printDependencyTable (goos : String) (deps : List Dependency) : List Printed :=
  categoryOrder.flatMap (printCategory (groupByCategory goos deps))

/-- The entries whose rows are printed, in the order of printing. -/
def printedRows : List Printed → List Dependency
  | [] => []
  | .row d :: ps => d :: printedRows ps
  | _ :: ps => printedRows ps

/-! ## `checkCommonIssues` -/

/-- The warning of the web development check. -/
def goVersionWarning : String :=
  "Go version < 1.16 - WebAssembly builds not supported"

/-- A loop `for _, d := range deps` that sets a flag when an entry named
`name` has status `Installed`. -/
def installedNamed (name : String) (deps : List Dependency) : Bool :=
  deps.any (fun d => d.Name == name && d.Status == "Installed")

/-- The loop of the web development check: the version of the first entry
named `Go` with status `Installed`, `""` when there is none. -/
def goVersionOf : List Dependency → String
  | [] => ""
  | d :: ds => if d.Name == "Go" && d.Status == "Installed" then d.Version else goVersionOf ds

/-- The function `checkCommonIssues(deps)` of `main.go`: the slices `issues`
and `warnings` it builds, and the history afterwards. -/
def checkCommonIssues (w : World) (h : List Event) (deps : List Dependency) :
    (List String × List String) × List Event :=
  -- Check for Wayland issues
  let displayServer := Getenv w h "XDG_SESSION_TYPE"
  let h1 := h ++ [Event.getenv "XDG_SESSION_TYPE"]
  let issues : List String :=
    if displayServer = "wayland" && !installedNamed "Wayland Support" deps then
      ["Running on Wayland but Wayland support may be incomplete"]
    else []
  -- Check for mobile development issues
  let androidSDK := installedNamed "Android SDK" deps
  let androidNDK := installedNamed "Android NDK" deps
  let warnings1 : List String :=
    if androidSDK && !androidNDK then
      ["Android SDK found but NDK missing - mobile builds may fail"]
    else []
  -- Check for performance issues
  let gpuAccel := installedNamed "GPU Acceleration" deps
  let warnings2 : List String :=
    if !gpuAccel && w.GOOS = "linux" then
      warnings1 ++ ["GPU acceleration not available - performance may be reduced"]
    else warnings1
  -- Check for web development issues
  let goVersion := goVersionOf deps
  let warnings3 : List String :=
    if goVersion ≠ "" && !Contains goVersion "go1.16" then
      warnings2 ++ [goVersionWarning]
    else warnings2
  ((issues, warnings3), h1)

/-- The history when the check pass, started from `h`, has handled the first
`i` entries of `deps`. -/
def historyAfter (w : World) (h : List Event) (deps : List Dependency) (i : Nat) :
    List Event :=
  (checkPass w h (deps.take i)).2

/-- Every entry that `getDependencies` can return, on any host. -/
def allEntries : List Dependency :=
  baseDeps ++ (windowsDeps ++ darwinDeps ++ linuxDeps) ++ mobileDeps ++ webDeps
    ++ performanceDeps

/-- A linux host for the examples: `PATH` is the only variable set; `go`,
`echo` and `sleep` resolve on `PATH`; `go version`, `echo 'test'` and `sleep 10`
exit with status 0, the last after 10 units of time and without output; every
other command fails. -/
def demoWorld : World where
  GOOS := "linux"
  env := fun _ name => if name = "PATH" then some "/usr/bin:/bin" else none
  resolves := fun _ file => file = "go" || file = "echo" || file = "sleep"
  run := fun _ _ => { output := "", ok := false, duration := 0 }
  combinedOutput := fun _ argv =>
    if argv = ["sh", "-c", "go version"] then
      { output := "go version go1.21.0 linux/amd64\n", ok := true, duration := 0 }
    else if argv = ["sh", "-c", "echo 'test'"] then
      { output := "test\n", ok := true, duration := 0 }
    else if argv = ["sh", "-c", "sleep 10"] then
      { output := "", ok := true, duration := 10 }
    else { output := "", ok := false, duration := 1 }

/-- The catalog entry `Go`, as an example. -/
def goEntry : Dependency :=
  { Name := "Go", Command := "go version", Optional := false,
    Description := "Go programming language (minimum version 1.12)",
    Platform := "all", Category := "core", Severity := "critical" }

/-- The catalog entry `iOS Simulator`, as an example. -/
def iosEntry : Dependency :=
  { Name := "iOS Simulator", Command := "xcrun simctl list devices", Optional := true,
    Description := "iOS Simulator for iOS development",
    Platform := "darwin", Category := "mobile", Severity := "info" }

/-- The entry `Go` after the check pass on `demoWorld`. -/
def goChecked : Dependency :=
  { goEntry with Status := "Installed", Version := "go version go1.21.0 linux/amd64" }

/-- The entry `iOS Simulator` after the check pass on `demoWorld`. -/
def iosChecked : Dependency :=
  { iosEntry with Status := "N/A", Version := "Not applicable" }

/-- The events of the check of `goEntry` on `demoWorld`. -/
def goHistory : List Event :=
  [Event.lookPath "go", Event.spawn ["sh", "-c", "go version"] 0]

/-- The entries the diagnosis counts as missing, in the words of the
specification: non-optional, platform-applicable, and not `Installed`. -/
def requiredMissing (goos : String) (d : Dependency) : Bool :=
  !d.Optional && applicable goos d && d.Status != "Installed"

/-- The title printed for a category, `categoryNames[cat]`. -/
def categoryTitle (cat : String) : String :=
  (mapGet categoryNames cat).getD ""

/-- The entries of `deps` that are platform-applicable and of category `cat`,
in list order. -/
def applicableIn (goos : String) (deps : List Dependency) (cat : String) :
    List Dependency :=
  deps.filter (fun d => applicable goos d && d.Category == cat)

/-- A linux host on which `go` resolves and `go version` exits with status 0
without printing anything. -/
def quietWorld : World where
  GOOS := "linux"
  env := fun _ _ => none
  resolves := fun _ file => file = "go"
  run := fun _ _ => { output := "", ok := false, duration := 0 }
  combinedOutput := fun _ argv =>
    if argv = ["sh", "-c", "go version"] then { output := "", ok := true, duration := 0 }
    else { output := "", ok := false, duration := 0 }

/-- The entry `Go` after the check pass on `quietWorld`: `Installed`, with an
empty Version. -/
def goBlank : Dependency :=
  { goEntry with Status := "Installed", Version := "" }

/-- The catalog entry `Fyne CLI`, as an example. -/
def fyneEntry : Dependency :=
  { Name := "Fyne CLI", Command := "fyne version", Optional := false,
    Description := "Fyne command line tools",
    Platform := "all", Category := "core", Severity := "critical" }

/-- The entry `Fyne CLI` after the check pass on `demoWorld`, where `fyne`
does not resolve. -/
def fyneChecked : Dependency :=
  { fyneEntry with Status := "Missing", Version := "" }

/-- The catalog entry `GPU Acceleration`, as an example. -/
def gpuEntry : Dependency :=
  { Name := "GPU Acceleration",
    Command := "glxinfo | grep 'direct rendering' || echo 'Not available'",
    Optional := true, Description := "GPU acceleration support (Linux)",
    Platform := "linux", Category := "performance", Severity := "warning" }

/-- A macOS host (`runtime.GOOS` is `darwin`) on which no variable is set, no
command resolves on `PATH` and every subprocess fails. -/
def macWorld : World where
  GOOS := "darwin"
  env := fun _ _ => none
  resolves := fun _ _ => false
  run := fun _ _ => { output := "", ok := false, duration := 0 }
  combinedOutput := fun _ _ => { output := "", ok := false, duration := 0 }

/-! ## Lemmas on the check pass -/

theorem checkDependency_isSome_of_fields (w : World) (h : List Event) (cmd : String)
    (hf : Fields cmd ≠ []) : (checkDependency w h cmd).1.isSome = true := by
  unfold checkDependency
  dsimp only
  split_ifs <;> try rfl
  split
  · rename_i heq
    exact absurd heq hf
  · split_ifs <;> rfl

theorem checkEntry_spec (w : World) (h h1 : List Event) (d d1 : Dependency)
    (he : checkEntry w h d = (some d1, h1)) :
    d1 = { d with Status := d1.Status, Version := d1.Version } ∧
    (applicable w.GOOS d = false →
      d1.Status = "N/A" ∧ d1.Version = "Not applicable" ∧ h1 = h) ∧
    (applicable w.GOOS d = true →
      checkDependency w h d.Command = (some (d1.Status, d1.Version), h1)) := by
  unfold checkEntry at he
  by_cases ha : applicable w.GOOS d = true
  · rw [if_pos ha] at he
    rcases hc : checkDependency w h d.Command with ⟨r, h2⟩
    rw [hc] at he
    cases r with
    | none => simp at he
    | some sv =>
      obtain ⟨s, v⟩ := sv
      simp only [Prod.mk.injEq, Option.some.injEq] at he
      obtain ⟨hd, hh⟩ := he
      subst hd
      subst hh
      simp [ha]
  · rw [if_neg ha] at he
    simp only [Prod.mk.injEq, Option.some.injEq] at he
    obtain ⟨hd, hh⟩ := he
    subst hd
    subst hh
    simp [ha]

theorem checkPass_cons (w : World) (h h2 : List Event) (d : Dependency)
    (ds out : List Dependency) (hp : checkPass w h (d :: ds) = (some out, h2)) :
    ∃ d1 h1 ds1, checkEntry w h d = (some d1, h1) ∧
      checkPass w h1 ds = (some ds1, h2) ∧ out = d1 :: ds1 := by
  rw [checkPass] at hp
  rcases he : checkEntry w h d with ⟨r, h1⟩
  rw [he] at hp
  cases r with
  | none => simp at hp
  | some d1 =>
    dsimp only at hp
    rcases hr : checkPass w h1 ds with ⟨r2, h3⟩
    rw [hr] at hp
    cases r2 with
    | none => simp at hp
    | some ds1 =>
      simp only [Prod.mk.injEq, Option.some.injEq] at hp
      exact ⟨d1, h1, ds1, rfl, by rw [hr, hp.2], hp.1.symm⟩

theorem checkPass_snd_cons (w : World) (h h1 : List Event) (d d1 : Dependency)
    (ds : List Dependency) (he : checkEntry w h d = (some d1, h1)) :
    (checkPass w h (d :: ds)).2 = (checkPass w h1 ds).2 := by
  rw [checkPass, he]
  dsimp only
  rcases checkPass w h1 ds with ⟨r2, h3⟩
  cases r2 <;> rfl

theorem checkEntry_isSome (w : World) (h : List Event) (d : Dependency)
    (hf : Fields d.Command ≠ []) : ∃ d1 h1, checkEntry w h d = (some d1, h1) := by
  unfold checkEntry
  split_ifs
  · have hs := checkDependency_isSome_of_fields w h d.Command hf
    rcases hc : checkDependency w h d.Command with ⟨r, h1⟩
    rw [hc] at hs
    cases r with
    | none => simp at hs
    | some sv => exact ⟨_, _, rfl⟩
  · exact ⟨_, _, rfl⟩

theorem checkPass_isSome (w : World) (deps : List Dependency)
    (hf : ∀ d ∈ deps, Fields d.Command ≠ []) (h : List Event) :
    ∃ out h2, checkPass w h deps = (some out, h2) := by
  induction deps generalizing h with
  | nil => exact ⟨[], h, rfl⟩
  | cons d ds ih =>
    obtain ⟨d1, h1, he⟩ := checkEntry_isSome w h d (hf d (List.mem_cons_self d ds))
    obtain ⟨ds1, h2, hp⟩ := ih (fun x hx => hf x (List.mem_cons_of_mem d hx)) h1
    refine ⟨d1 :: ds1, h2, ?_⟩
    rw [checkPass, he]
    dsimp only
    rw [hp]

theorem platformDeps_subset (goos : String) (d : Dependency)
    (hd : d ∈ platformDeps goos) : d ∈ windowsDeps ++ darwinDeps ++ linuxDeps := by
  unfold platformDeps at hd
  simp only [List.mem_append]
  split_ifs at hd
  · exact Or.inl (Or.inl hd)
  · exact Or.inl (Or.inr hd)
  · exact Or.inr hd
  · simp at hd

theorem getDependencies_subset (goos : String) (d : Dependency)
    (hd : d ∈ getDependencies goos) : d ∈ allEntries := by
  unfold getDependencies at hd
  unfold allEntries
  simp only [List.mem_append] at hd ⊢
  rcases hd with (((hd | hd) | hd) | hd) | hd
  · exact Or.inl (Or.inl (Or.inl (Or.inl hd)))
  · have := platformDeps_subset goos d hd
    simp only [List.mem_append] at this
    exact Or.inl (Or.inl (Or.inl (Or.inr this)))
  · exact Or.inl (Or.inl (Or.inr hd))
  · exact Or.inl (Or.inr hd)
  · exact Or.inr hd

theorem allEntries_fields : ∀ d ∈ allEntries, Fields d.Command ≠ [] := by
  decide

theorem checkPass_indexed (w : World) (deps : List Dependency) :
    ∀ (h h2 : List Event) (out : List Dependency),
      checkPass w h deps = (some out, h2) →
      out.length = deps.length ∧
      ∀ (i : Nat) (d o : Dependency), deps[i]? = some d → out[i]? = some o →
        o = { d with Status := o.Status, Version := o.Version } ∧
        (applicable w.GOOS d = false →
          o.Status = "N/A" ∧ historyAfter w h deps (i + 1) = historyAfter w h deps i) ∧
        (applicable w.GOOS d = true →
          checkDependency w (historyAfter w h deps i) d.Command
            = (some (o.Status, o.Version), historyAfter w h deps (i + 1))) := by
  induction deps with
  | nil =>
    intro h h2 out hp
    simp only [checkPass, Prod.mk.injEq, Option.some.injEq] at hp
    refine ⟨by rw [← hp.1], ?_⟩
    intro i d o hd
    simp at hd
  | cons d0 ds ih =>
    intro h h2 out hp
    obtain ⟨d1, h1, ds1, he, hr, hout⟩ := checkPass_cons w h h2 d0 ds out hp
    subst hout
    obtain ⟨hlen, hix⟩ := ih h1 h2 ds1 hr
    refine ⟨by simp [hlen], ?_⟩
    intro i d o hd ho
    cases i with
    | zero =>
      simp only [List.getElem?_cons_zero, Option.some.injEq] at hd ho
      subst hd
      subst ho
      obtain ⟨hfields, hna, happ⟩ := checkEntry_spec w h h1 d0 d1 he
      have h0 : historyAfter w h (d0 :: ds) 0 = h := rfl
      have h1' : historyAfter w h (d0 :: ds) (0 + 1) = h1 := by
        unfold historyAfter
        rw [List.take_succ_cons, checkPass_snd_cons w h h1 d0 d1 _ he]
        rfl
      rw [h0, h1']
      refine ⟨hfields, ?_, happ⟩
      intro ha
      obtain ⟨hs, _, hh⟩ := hna ha
      exact ⟨hs, hh⟩
    | succ j =>
      simp only [List.getElem?_cons_succ] at hd ho
      have hshift : ∀ k, historyAfter w h (d0 :: ds) (k + 1) = historyAfter w h1 ds k := by
        intro k
        unfold historyAfter
        rw [List.take_succ_cons, checkPass_snd_cons w h h1 d0 d1 _ he]
      rw [hshift j, hshift (j + 1)]
      exact hix j d o hd ho

/-! ## Lemmas on the diagnosis -/

theorem diagnosisStep_eq (goos : String) (acc : Bool × List String) (d : Dependency) :
    diagnosisStep goos acc d
      = if requiredMissing goos d then (false, acc.2 ++ [d.Name]) else acc := by
  unfold diagnosisStep requiredMissing
  cases applicable goos d <;> cases d.Optional <;>
    cases (d.Status != "Installed") <;> simp

theorem diagnosis_foldl (goos : String) (deps : List Dependency) :
    ∀ acc : Bool × List String,
      (deps.foldl (diagnosisStep goos) acc).2
          = acc.2 ++ (deps.filter (requiredMissing goos)).map (fun d => d.Name) ∧
      ((deps.foldl (diagnosisStep goos) acc).1 = true ↔
        acc.1 = true ∧ ∀ d ∈ deps, requiredMissing goos d = false) := by
  induction deps with
  | nil => intro acc; simp
  | cons d ds ih =>
    intro acc
    rw [List.foldl_cons, diagnosisStep_eq]
    by_cases hm : requiredMissing goos d = true
    · rw [if_pos hm]
      obtain ⟨h2, h1⟩ := ih (false, acc.2 ++ [d.Name])
      refine ⟨?_, ?_⟩
      · rw [h2]; simp [List.filter_cons, hm]
      · rw [h1]; simp [hm]
    · rw [if_neg hm]
      obtain ⟨h2, h1⟩ := ih acc
      simp only [Bool.not_eq_true] at hm
      refine ⟨?_, ?_⟩
      · rw [h2]; simp [List.filter_cons, hm]
      · rw [h1]; simp [hm]

/-! ## Lemmas on strings -/

theorem HasPrefix_append (pre n : String) : HasPrefix (pre ++ n) pre = true := by
  unfold HasPrefix
  rw [String.data_append, List.isPrefixOf_iff_prefix]
  exact List.prefix_append _ _

theorem TrimPrefix_append (pre n : String) : TrimPrefix (pre ++ n) pre = n := by
  unfold TrimPrefix
  rw [if_pos (HasPrefix_append pre n), String.data_append, List.drop_left]

/-! ## Lemmas on the statuses -/

theorem checkDependency_status (w : World) (h h1 : List Event) (cmd s v : String)
    (hc : checkDependency w h cmd = (some (s, v), h1)) :
    s = "Installed" ∨ (s = "Missing" ∧ v = "") ∨ (s = "Error" ∧ v = "") := by
  unfold checkDependency at hc
  dsimp only at hc
  split_ifs at hc <;>
    first
    | (simp only [Prod.mk.injEq, Option.some.injEq] at hc
       obtain ⟨⟨hs, hv⟩, _⟩ := hc
       subst hs
       subst hv
       simp)
    | skip
  split at hc
  · simp at hc
  · split_ifs at hc <;>
      (simp only [Prod.mk.injEq, Option.some.injEq] at hc
       obtain ⟨⟨hs, hv⟩, _⟩ := hc
       subst hs
       subst hv
       simp)

theorem checkPass_mem (w : World) (deps : List Dependency) :
    ∀ (h h2 : List Event) (out : List Dependency),
      checkPass w h deps = (some out, h2) →
      ∀ o ∈ out, ∃ d h0 h1, d ∈ deps ∧ checkEntry w h0 d = (some o, h1) := by
  induction deps with
  | nil =>
    intro h h2 out hp o ho
    simp only [checkPass, Prod.mk.injEq, Option.some.injEq] at hp
    rw [← hp.1] at ho
    simp at ho
  | cons d0 ds ih =>
    intro h h2 out hp o ho
    obtain ⟨d1, h1, ds1, he, hr, hout⟩ := checkPass_cons w h h2 d0 ds out hp
    subst hout
    rcases List.mem_cons.mp ho with ho | ho
    · subst ho
      exact ⟨d0, h, h1, List.mem_cons_self d0 ds, he⟩
    · obtain ⟨d, h0, h3, hd, hd2⟩ := ih h1 h2 ds1 hr o ho
      exact ⟨d, h0, h3, List.mem_cons_of_mem d0 hd, hd2⟩

theorem checkEntry_version (w : World) (h h1 : List Event) (d o : Dependency)
    (he : checkEntry w h d = (some o, h1)) :
    (o.Status = "Missing" ∨ o.Status = "Error" → o.Version = "") ∧
    (o.Status = "N/A" → o.Version = "Not applicable") := by
  obtain ⟨_, hna, happ⟩ := checkEntry_spec w h h1 d o he
  cases ha : applicable w.GOOS d
  · obtain ⟨hs, hv, _⟩ := hna ha
    refine ⟨?_, fun _ => hv⟩
    rw [hs]
    intro hx
    rcases hx with hx | hx <;> exact absurd hx (by decide)
  · have hst := checkDependency_status w h h1 d.Command o.Status o.Version (happ ha)
    rcases hst with hst | ⟨hst, hv⟩ | ⟨hst, hv⟩
    · rw [hst]
      refine ⟨?_, ?_⟩
      · intro hx
        rcases hx with hx | hx <;> exact absurd hx (by decide)
      · intro hx
        exact absurd hx (by decide)
    · refine ⟨fun _ => hv, ?_⟩
      rw [hst]
      intro hx
      exact absurd hx (by decide)
    · refine ⟨fun _ => hv, ?_⟩
      rw [hst]
      intro hx
      exact absurd hx (by decide)

/-! ## Lemmas on the report -/

theorem mapGet_cons {V : Type} (k1 k2 : String) (v2 : V) (m : GoMap V) :
    mapGet ((k2, v2) :: m) k1 = if k1 = k2 then some v2 else mapGet m k1 := by
  unfold mapGet
  by_cases hk : k1 = k2
  · subst hk
    simp [List.lookup]
  · have hb : (k1 == k2) = false := beq_false_of_ne hk
    rw [if_neg hk, List.lookup, hb]

theorem mapGet_mapSet {V : Type} (k k1 : String) (v : V) (m : GoMap V) :
    mapGet (mapSet k v m) k1 = if k1 = k then some v else mapGet m k1 := by
  induction m with
  | nil =>
    rw [mapSet, mapGet_cons]
  | cons p m ih =>
    obtain ⟨k2, v2⟩ := p
    rw [mapSet]
    by_cases h2 : k2 = k
    · subst h2
      rw [if_pos rfl, mapGet_cons, mapGet_cons]
      split_ifs <;> rfl
    · rw [if_neg h2, mapGet_cons, mapGet_cons, ih]
      by_cases hk : k1 = k
      · subst hk
        have h3 : ¬ k1 = k2 := fun e => h2 e.symm
        simp [h3]
      · simp [hk]

theorem groupStep_getD (goos : String) (m : GoMap (List Dependency)) (d : Dependency)
    (cat : String) :
    (mapGet (groupStep goos m d) cat).getD []
      = (mapGet m cat).getD [] ++ applicableIn goos [d] cat := by
  unfold groupStep applicableIn
  by_cases ha : applicable goos d = true
  · rw [if_pos ha, mapGet_mapSet]
    by_cases hc : cat = d.Category
    · subst hc
      simp [List.filter_cons, ha]
    · have hc2 : ¬ d.Category = cat := fun e => hc e.symm
      simp [List.filter_cons, hc, hc2]
  · rw [if_neg ha]
    simp [List.filter_cons, ha]

theorem groupFold_getD (goos : String) (deps : List Dependency) :
    ∀ (m : GoMap (List Dependency)) (cat : String),
      (mapGet (deps.foldl (groupStep goos) m) cat).getD []
        = (mapGet m cat).getD [] ++ applicableIn goos deps cat := by
  induction deps with
  | nil => intro m cat; simp [applicableIn]
  | cons d ds ih =>
    intro m cat
    rw [List.foldl_cons, ih, groupStep_getD]
    simp [applicableIn, List.filter_cons]
    split_ifs <;> simp

theorem groupByCategory_getD (goos : String) (deps : List Dependency) (cat : String) :
    (mapGet (groupByCategory goos deps) cat).getD [] = applicableIn goos deps cat := by
  unfold groupByCategory
  rw [groupFold_getD]
  simp [mapGet]

theorem printCategory_eq (m : GoMap (List Dependency)) (cat : String) :
    printCategory m cat
      = if (mapGet m cat).getD [] = [] then []
        else [Printed.header (categoryTitle cat)]
          ++ ((mapGet m cat).getD []).map Printed.row ++ [Printed.footer] := by
  unfold printCategory categoryTitle
  cases hm : mapGet m cat with
  | none => simp
  | some ds =>
    cases ds with
    | nil => simp
    | cons d ds => simp

theorem printedRows_append (a b : List Printed) :
    printedRows (a ++ b) = printedRows a ++ printedRows b := by
  induction a with
  | nil => rfl
  | cons p ps ih =>
    cases p <;> simp [printedRows, ih]

theorem printedRows_map_row (ds : List Dependency) :
    printedRows (ds.map Printed.row) = ds := by
  induction ds with
  | nil => rfl
  | cons d ds ih => simp [printedRows, ih]

theorem printedRows_category (m : GoMap (List Dependency)) (cat : String) :
    printedRows (printCategory m cat) = (mapGet m cat).getD [] := by
  rw [printCategory_eq]
  split_ifs with he
  · rw [he]; rfl
  · rw [printedRows_append, printedRows_append, printedRows_map_row]
    simp [printedRows]

theorem count_filter_ite (p : Dependency → Bool) (a : Dependency) (l : List Dependency) :
    List.count a (l.filter p) = if p a = true then List.count a l else 0 := by
  split_ifs with hp
  · exact List.count_filter hp
  · apply List.count_eq_zero_of_not_mem
    intro hm
    exact hp (List.mem_filter.mp hm).2

theorem header_mem_printCategory (m : GoMap (List Dependency)) (c t : String) :
    Printed.header t ∈ printCategory m c ↔
      (mapGet m c).getD [] ≠ [] ∧ t = categoryTitle c := by
  rw [printCategory_eq]
  split_ifs with he
  · simp [he]
  · simp [he]

theorem categoryTitle_injective :
    ∀ c ∈ categoryOrder, ∀ cat ∈ categoryOrder,
      categoryTitle cat = categoryTitle c → c = cat := by
  decide

theorem applicableIn_ne_nil (goos : String) (deps : List Dependency) (cat : String) :
    applicableIn goos deps cat ≠ [] ↔
      ∃ d ∈ deps, applicable goos d = true ∧ d.Category = cat := by
  unfold applicableIn
  rw [ne_eq, List.filter_eq_nil_iff]
  simp

theorem printDependencyTable_eq (goos : String) (deps : List Dependency) :
    printDependencyTable goos deps
      = categoryOrder.flatMap (fun cat =>
          if applicableIn goos deps cat = [] then []
          else [Printed.header (categoryTitle cat)]
            ++ (applicableIn goos deps cat).map Printed.row ++ [Printed.footer]) := by
  unfold printDependencyTable
  congr 1
  funext cat
  rw [printCategory_eq, groupByCategory_getD]

theorem printedRows_table (goos : String) (deps : List Dependency) :
    printedRows (printDependencyTable goos deps)
      = categoryOrder.flatMap (applicableIn goos deps) := by
  unfold printDependencyTable categoryOrder
  simp only [List.flatMap_cons, List.flatMap_nil, printedRows_append,
    printedRows_category, groupByCategory_getD]
  rfl

theorem rows_perm (goos : String) (deps : List Dependency)
    (hcat : ∀ d ∈ deps, d.Category ∈ categoryOrder) :
    List.Perm (categoryOrder.flatMap (applicableIn goos deps))
      (deps.filter (applicable goos)) := by
  rw [List.perm_iff_count]
  intro a
  unfold categoryOrder applicableIn
  simp only [List.flatMap_cons, List.flatMap_nil, List.count_append, count_filter_ite,
    List.count_nil]
  by_cases ha : a ∈ deps
  · have hc := hcat a ha
    unfold categoryOrder at hc
    simp only [List.mem_cons, List.mem_singleton, List.not_mem_nil, or_false] at hc
    cases happ : applicable goos a
    · simp
    · rcases hc with hc | hc | hc | hc | hc <;> rw [hc] <;> simp
  · rw [List.count_eq_zero_of_not_mem ha]
    simp

/-! ## Lemmas on the issue rules -/

theorem goVersionOf_ne_empty (deps : List Dependency) (hv : goVersionOf deps ≠ "") :
    ∃ d ∈ deps, d.Name = "Go" ∧ d.Status = "Installed" ∧ d.Version = goVersionOf deps := by
  induction deps with
  | nil => exact absurd rfl hv
  | cons x xs ih =>
    rw [goVersionOf] at hv ⊢
    by_cases hx : (x.Name == "Go" && x.Status == "Installed") = true
    · rw [if_pos hx]
      simp only [Bool.and_eq_true, beq_iff_eq] at hx
      exact ⟨x, List.mem_cons_self x xs, hx.1, hx.2, rfl⟩
    · rw [if_neg hx] at hv ⊢
      obtain ⟨d, hd, h1, h2, h3⟩ := ih hv
      exact ⟨d, List.mem_cons_of_mem x hd, h1, h2, h3⟩

theorem goVersionOf_unique (deps : List Dependency)
    (hn : (deps.map (fun d => d.Name)).Nodup) (d : Dependency) (hd : d ∈ deps)
    (hname : d.Name = "Go") (hst : d.Status = "Installed") :
    goVersionOf deps = d.Version := by
  induction deps with
  | nil => simp at hd
  | cons x xs ih =>
    rw [List.map_cons, List.nodup_cons] at hn
    rw [goVersionOf]
    by_cases hx : (x.Name == "Go" && x.Status == "Installed") = true
    · rw [if_pos hx]
      simp only [Bool.and_eq_true, beq_iff_eq] at hx
      rcases List.mem_cons.mp hd with hd | hd
      · rw [hd]
      · exfalso
        apply hn.1
        rw [hx.1, ← hname]
        exact List.mem_map_of_mem (fun d => d.Name) hd
    · rw [if_neg hx]
      rcases List.mem_cons.mp hd with hd | hd
      · exfalso
        apply hx
        rw [← hd]
        simp [hname, hst]
      · exact ih hn.2 hd

theorem goVersionWarning_mem (w : World) (h : List Event) (deps : List Dependency) :
    goVersionWarning ∈ (checkCommonIssues w h deps).1.2 ↔
      goVersionOf deps ≠ "" ∧ Contains (goVersionOf deps) "go1.16" = false := by
  have h1 : goVersionWarning ≠ "Android SDK found but NDK missing - mobile builds may fail" := by
    decide
  have h2 : goVersionWarning ≠ "GPU acceleration not available - performance may be reduced" := by
    decide
  unfold checkCommonIssues
  dsimp only
  split_ifs <;> simp_all

/-! ## Lemmas on the catalog -/

theorem checkPass_forward (w : World) (deps : List Dependency) :
    ∀ (h h2 : List Event) (out : List Dependency),
      checkPass w h deps = (some out, h2) →
      ∀ d ∈ deps, ∃ o ∈ out, ∃ h0 h1, checkEntry w h0 d = (some o, h1) := by
  induction deps with
  | nil =>
    intro h h2 out _ d hd
    simp at hd
  | cons d0 ds ih =>
    intro h h2 out hp d hd
    obtain ⟨d1, h1, ds1, he, hr, hout⟩ := checkPass_cons w h h2 d0 ds out hp
    subst hout
    rcases List.mem_cons.mp hd with hd | hd
    · subst hd
      exact ⟨d1, List.mem_cons_self d1 ds1, h, h1, he⟩
    · obtain ⟨o, ho, h0, h3, he2⟩ := ih h1 h2 ds1 hr d hd
      exact ⟨o, List.mem_cons_of_mem d1 ho, h0, h3, he2⟩

theorem checkEntry_fields (w : World) (h h1 : List Event) (d o : Dependency)
    (he : checkEntry w h d = (some o, h1)) :
    o.Name = d.Name ∧ o.Optional = d.Optional ∧ o.Platform = d.Platform := by
  have hf := (checkEntry_spec w h h1 d o he).1
  refine ⟨?_, ?_, ?_⟩
  · exact (congrArg Dependency.Name hf : _)
  · exact (congrArg Dependency.Optional hf : _)
  · exact (congrArg Dependency.Platform hf : _)

theorem diagnosis_counts (goos : String) (out : List Dependency) (o : Dependency)
    (ho : o ∈ out) (hopt : o.Optional = false) (happ : applicable goos o = true)
    (hst : o.Status ≠ "Installed") :
    (diagnosis goos out).1 = false ∧ o.Name ∈ (diagnosis goos out).2 := by
  obtain ⟨h2, h1⟩ := diagnosis_foldl goos out (true, [])
  have hm : requiredMissing goos o = true := by
    simp [requiredMissing, hopt, happ, hst]
  unfold diagnosis
  constructor
  · rw [← Bool.not_eq_true, h1]
    intro hall
    have := hall.2 o ho
    rw [hm] at this
    exact absurd this (by decide)
  · rw [h2]
    simp only [List.nil_append, List.mem_map, List.mem_filter]
    exact ⟨o, ⟨ho, hm⟩, rfl⟩

theorem applicable_of_all (goos : String) (d : Dependency) (hp : d.Platform = "all") :
    applicable goos d = true := by
  simp [applicable, hp]

theorem inapplicable_entry (goos : String) :
    ∃ d ∈ getDependencies goos, applicable goos d = false := by
  by_cases hg : goos = "darwin"
  · refine ⟨gpuEntry, ?_, ?_⟩
    · unfold getDependencies
      exact List.mem_append_right _ (by decide)
    · subst hg
      decide
  · refine ⟨iosEntry, ?_, ?_⟩
    · unfold getDependencies
      exact List.mem_append_left _ (List.mem_append_left _ (List.mem_append_right _ (by decide)))
    · have hne : ("darwin" == goos) = false := beq_false_of_ne (fun e => hg e.symm)
      have hp : iosEntry.Platform = "darwin" := rfl
      unfold applicable
      rw [hp, hne]
      decide

/-! ## The claims -/

/-- C1: the check pass of `runDoctor` succeeds on the catalog of every host,
and whenever it succeeds on a list, entry by entry: an entry whose Platform is
neither `all` nor `runtime.GOOS` gets Status `N/A` and leaves the history of
interactions unchanged (no call of `checkDependency`, no environment read, no
subprocess); any other entry gets as Status and Version exactly the pair that
`checkDependency` returns on its Command at that point; and no field other than
Status and Version is changed. -/
theorem checkPass_platform_filter (w : World) (h : List Event) :
    (∃ out h2, checkPass w h (getDependencies w.GOOS) = (some out, h2)) ∧
    ∀ (deps out : List Dependency) (h2 : List Event),
      checkPass w h deps = (some out, h2) →
      out.length = deps.length ∧
      ∀ (i : Nat) (d o : Dependency), deps[i]? = some d → out[i]? = some o →
        o = { d with Status := o.Status, Version := o.Version } ∧
        (applicable w.GOOS d = false →
          o.Status = "N/A" ∧ historyAfter w h deps (i + 1) = historyAfter w h deps i) ∧
        (applicable w.GOOS d = true →
          checkDependency w (historyAfter w h deps i) d.Command
            = (some (o.Status, o.Version), historyAfter w h deps (i + 1))) := by
  constructor
  · exact checkPass_isSome w _
      (fun d hd => allEntries_fields d (getDependencies_subset w.GOOS d hd)) h
  · intro deps out h2 hp
    exact checkPass_indexed w deps h h2 out hp

/-- Witness of C1 on `demoWorld`: in the list `[Go, iOS Simulator]` the second
entry is not applicable on linux, gets `N/A` and adds no event; the first gets
the result of `checkDependency "go version"`. -/
theorem checkPass_platform_filter_witness :
    checkPass demoWorld [] [goEntry, iosEntry] = (some [goChecked, iosChecked], goHistory) ∧
    applicable demoWorld.GOOS iosEntry = false ∧
    (iosChecked.Status = "N/A" ∧
      historyAfter demoWorld [] [goEntry, iosEntry] (1 + 1)
        = historyAfter demoWorld [] [goEntry, iosEntry] 1) ∧
    applicable demoWorld.GOOS goEntry = true ∧
    checkDependency demoWorld (historyAfter demoWorld [] [goEntry, iosEntry] 0)
        goEntry.Command
      = (some (goChecked.Status, goChecked.Version),
          historyAfter demoWorld [] [goEntry, iosEntry] (0 + 1)) :=
  have hp : checkPass demoWorld [] [goEntry, iosEntry]
      = (some [goChecked, iosChecked], goHistory) := by decide
  have hs := ((checkPass_platform_filter demoWorld []).2 _ _ _ hp).2
  ⟨hp, by decide, (hs 1 iosEntry iosChecked rfl rfl).2.1 (by decide), by decide,
    (hs 0 goEntry goChecked rfl rfl).2.2 (by decide)⟩

/-- C2: for every checked list and host OS, the diagnosis of `runDoctor` is
SUCCESS if and only if every non-optional, platform-applicable entry has Status
`Installed`; the missing list is exactly the Names of the non-optional,
platform-applicable entries whose Status is not `Installed`, in list order; and
the diagnosis is FAILURE exactly when that list is non-empty. -/
theorem diagnosis_success_iff (goos : String) (deps : List Dependency) :
    ((diagnosis goos deps).1 = true ↔
      ∀ d ∈ deps, d.Optional = false → applicable goos d = true →
        d.Status = "Installed") ∧
    (diagnosis goos deps).2
      = (deps.filter (fun d => !d.Optional && applicable goos d &&
          d.Status != "Installed")).map (fun d => d.Name) ∧
    ((diagnosis goos deps).1 = false ↔ (diagnosis goos deps).2 ≠ []) := by
  obtain ⟨h2, h1⟩ := diagnosis_foldl goos deps (true, [])
  have hsucc : (diagnosis goos deps).1 = true ↔
      ∀ d ∈ deps, requiredMissing goos d = false := by
    unfold diagnosis
    rw [h1]
    simp
  have hmiss : (diagnosis goos deps).2
      = (deps.filter (requiredMissing goos)).map (fun d => d.Name) := by
    unfold diagnosis
    rw [h2]
    simp
  refine ⟨?_, hmiss, ?_⟩
  · rw [hsucc]
    constructor
    · intro hall d hd hopt happ
      have := hall d hd
      simp [requiredMissing, hopt, happ] at this
      exact this
    · intro hall d hd
      unfold requiredMissing
      cases hopt : d.Optional
      · cases happ : applicable goos d
        · simp
        · simp [hall d hd hopt happ]
      · simp
  · rw [hmiss, ← Bool.not_eq_true, hsucc]
    simp only [ne_eq, List.map_eq_nil_iff, List.filter_eq_nil_iff, not_forall,
      Bool.not_eq_true, Classical.not_imp, Bool.not_eq_false]

/-- Witness of C2: on linux, of the checked entries `Go` (Installed) and
`iOS Simulator` (N/A, not applicable) none is counted, the diagnosis is
SUCCESS; with `Go` unchecked (Status empty) the diagnosis is FAILURE and the
missing list is `Go`. -/
theorem diagnosis_success_iff_witness :
    diagnosis "linux" [goChecked, iosChecked] = (true, []) ∧
    diagnosis "linux" [goEntry, iosChecked] = (false, ["Go"]) ∧
    ((diagnosis "linux" [goEntry, iosChecked]).1 = false ↔
      (diagnosis "linux" [goEntry, iosChecked]).2 ≠ []) :=
  ⟨by decide, by decide, (diagnosis_success_iff "linux" [goEntry, iosChecked]).2.2⟩

/-- C3: for every variable name `n` and every environment,
`checkDependency("echo $" + n)` returns `("Missing", "")` when the variable `n`
is unset or empty and `("Installed", v)` when it has the non-empty value `v`;
whatever else the command contains, its only interaction with the operating
system is the one call `os.Getenv(n)` (no subprocess is spawned). -/
theorem checkDependency_env_probe (w : World) (h : List Event) (n : String) :
    (w.env h n = none ∨ w.env h n = some "" →
      checkDependency w h ("echo $" ++ n)
        = (some ("Missing", ""), h ++ [Event.getenv n])) ∧
    (∀ v : String, w.env h n = some v → v ≠ "" →
      checkDependency w h ("echo $" ++ n)
        = (some ("Installed", v), h ++ [Event.getenv n])) := by
  have hpre : HasPrefix ("echo $" ++ n) "echo $" = true := HasPrefix_append _ _
  have htrim : TrimPrefix ("echo $" ++ n) "echo $" = n := TrimPrefix_append _ _
  constructor
  · intro hv
    have hval : Getenv w h n = "" := by
      unfold Getenv
      rcases hv with hv | hv <;> rw [hv] <;> rfl
    unfold checkDependency
    rw [if_pos hpre]
    simp only [htrim]
    rw [if_pos hval]
  · intro v hv hne
    have hval : Getenv w h n = v := by
      unfold Getenv
      rw [hv]
      rfl
    unfold checkDependency
    rw [if_pos hpre]
    simp only [htrim, hval]
    rw [if_neg hne]

/-- Witness of C3: on `demoWorld`, where `PATH` is set, `checkDependency("echo
$PATH")` is `Installed` with the value of `PATH`, and the unset variable
`ANDROID_HOME` gives `Missing`. -/
theorem checkDependency_env_probe_witness :
    checkDependency demoWorld [] "echo $PATH"
      = (some ("Installed", "/usr/bin:/bin"), [Event.getenv "PATH"]) ∧
    checkDependency demoWorld [] "echo $ANDROID_HOME"
      = (some ("Missing", ""), [Event.getenv "ANDROID_HOME"]) :=
  ⟨(checkDependency_env_probe demoWorld [] "PATH").2 "/usr/bin:/bin" (by decide) (by decide),
   (checkDependency_env_probe demoWorld [] "ANDROID_HOME").1 (Or.inl (by decide))⟩

/-- C4: a command that reaches the default probe (it does not start with
`echo $` or `which `, contains none of `pkg-config --exists`, `||`, `&&`, and
has a first field) and whose first field does not resolve on `PATH` gets
`("Missing", "")`; the only interaction is the `exec.LookPath` call, the
command is not executed. -/
theorem checkDependency_unresolved (w : World) (h : List Event)
    (cmd firstCmd : String) (rest : List String)
    (hecho : HasPrefix cmd "echo $" = false)
    (hwhich : HasPrefix cmd "which " = false)
    (hpkg : Contains cmd "pkg-config --exists" = false)
    (hor : Contains cmd "||" = false)
    (hand : Contains cmd "&&" = false)
    (hfields : Fields cmd = firstCmd :: rest)
    (hpath : w.resolves h firstCmd = false) :
    checkDependency w h cmd = (some ("Missing", ""), h ++ [Event.lookPath firstCmd]) := by
  unfold checkDependency
  simp [hecho, hwhich, hpkg, hor, hand, hfields, hpath]

/-- Witness of C4: `checkDependency("nonexistentcommand12345")` on
`demoWorld`, where the command does not resolve. -/
theorem checkDependency_unresolved_witness :
    checkDependency demoWorld [] "nonexistentcommand12345"
      = (some ("Missing", ""), [] ++ [Event.lookPath "nonexistentcommand12345"]) :=
  checkDependency_unresolved demoWorld [] "nonexistentcommand12345"
    "nonexistentcommand12345" [] (by decide) (by decide) (by decide) (by decide)
    (by decide) (by decide) (by decide)

/-- C5, the code at the failing input: on `demoWorld`, where `sleep 10` runs
for 10 units of time and exits with status 0, `checkDependency("sleep 10")`
waits for the whole run (the time spent is 10, whatever the timeout) and
returns `("Installed", "")`, not `Error`; `checkDependency("echo 'test'")`
returns the trimmed output `test`. -/
theorem checkDependency_sleep_unbounded :
    checkDependency demoWorld [] "sleep 10"
      = (some ("Installed", ""),
          [Event.lookPath "sleep", Event.spawn ["sh", "-c", "sleep 10"] 10]) ∧
    elapsed (checkDependency demoWorld [] "sleep 10").2 = 10 ∧
    checkDependency demoWorld [] "echo 'test'"
      = (some ("Installed", "test"),
          [Event.lookPath "echo", Event.spawn ["sh", "-c", "echo 'test'"] 0]) := by
  refine ⟨by decide, by decide, by decide⟩

/-- C6 as stated fails: on the linux host `demoWorld` the check pass over the
catalog leaves the entry `iOS Simulator` with Status `N/A`, which is not
`Installed`, and the non-empty Version `Not applicable`. -/
theorem checkPass_version_counterexample :
    (∃ out h2, checkPass demoWorld [] (getDependencies demoWorld.GOOS) = (some out, h2) ∧
      iosChecked ∈ out) ∧
    iosChecked.Status = "N/A" ∧ iosChecked.Status ≠ "Installed" ∧
    iosChecked.Version = "Not applicable" ∧ iosChecked.Version ≠ "" :=
  ⟨⟨((checkPass demoWorld [] (getDependencies demoWorld.GOOS)).1).getD [],
     (checkPass demoWorld [] (getDependencies demoWorld.GOOS)).2, by decide, by decide⟩,
   by decide, by decide, by decide, by decide⟩

/-- C6 amended: the check pass succeeds on the catalog of every host, and after
a successful pass over any list, for every host OS, environment and subprocess
outcome, an entry whose Status is `Missing` or `Error` has an empty Version and
an entry whose Status is `N/A` has the Version `Not applicable`. -/
theorem checkPass_version_of_status (w : World) (h : List Event) :
    (∃ out h2, checkPass w h (getDependencies w.GOOS) = (some out, h2)) ∧
    ∀ (deps out : List Dependency) (h2 : List Event),
      checkPass w h deps = (some out, h2) →
      ∀ o ∈ out,
        (o.Status = "Missing" ∨ o.Status = "Error" → o.Version = "") ∧
        (o.Status = "N/A" → o.Version = "Not applicable") := by
  constructor
  · exact checkPass_isSome w _
      (fun d hd => allEntries_fields d (getDependencies_subset w.GOOS d hd)) h
  · intro deps out h2 hp o ho
    obtain ⟨d, h0, h1, _, he⟩ := checkPass_mem w deps h h2 out hp o ho
    exact checkEntry_version w h0 h1 d o he

/-- Witness of C6 amended, on `demoWorld`: in the pass over `iOS Simulator`
and `Fyne CLI` the command that does not resolve is `Missing` with an empty
Version, the inapplicable entry is `N/A` with `Not applicable`. -/
theorem checkPass_version_of_status_witness :
    checkPass demoWorld [] [iosEntry, fyneEntry]
      = (some [iosChecked, fyneChecked], [Event.lookPath "fyne"]) ∧
    fyneChecked.Version = "" ∧ iosChecked.Version = "Not applicable" :=
  have hp : checkPass demoWorld [] [iosEntry, fyneEntry]
      = (some [iosChecked, fyneChecked], [Event.lookPath "fyne"]) := by decide
  have hs := (checkPass_version_of_status demoWorld []).2 _ _ _ hp
  ⟨hp, (hs fyneChecked (by decide)).1 (Or.inl (by decide)),
    (hs iosChecked (by decide)).2 (by decide)⟩

/-- C7: `printDependencyTable` prints, for each category of the fixed order
core, mobile, web, performance, compatibility that has at least one
platform-applicable entry, a header, the rows of the applicable entries of that
category in list order, and a footer, and nothing for a category without one.
So the rows printed are the applicable entries grouped by category in that
order, each group in list order; when every Category is one of the five, they
are exactly the applicable entries (a permutation of them); and the header of a
category is printed if and only if an applicable entry has that category. -/
theorem printDependencyTable_grouping (goos : String) (deps : List Dependency)
    (hcat : ∀ d ∈ deps, d.Category ∈ categoryOrder) :
    printDependencyTable goos deps
      = categoryOrder.flatMap (fun cat =>
          if applicableIn goos deps cat = [] then []
          else [Printed.header (categoryTitle cat)]
            ++ (applicableIn goos deps cat).map Printed.row ++ [Printed.footer]) ∧
    printedRows (printDependencyTable goos deps)
      = categoryOrder.flatMap
          (fun cat => deps.filter (fun d => applicable goos d && d.Category == cat)) ∧
    List.Perm (printedRows (printDependencyTable goos deps))
      (deps.filter (fun d => d.Platform == "all" || d.Platform == goos)) ∧
    ∀ cat ∈ categoryOrder,
      (Printed.header (categoryTitle cat) ∈ printDependencyTable goos deps ↔
        ∃ d ∈ deps, applicable goos d = true ∧ d.Category = cat) := by
  refine ⟨printDependencyTable_eq goos deps, printedRows_table goos deps, ?_, ?_⟩
  · rw [printedRows_table]
    exact rows_perm goos deps hcat
  · intro cat hc
    unfold printDependencyTable
    rw [List.mem_flatMap, ← applicableIn_ne_nil]
    constructor
    · rintro ⟨c, hcm, hmem⟩
      rw [header_mem_printCategory, groupByCategory_getD] at hmem
      have hcc := categoryTitle_injective c hcm cat hc hmem.2
      rw [← hcc]
      exact hmem.1
    · intro hne
      refine ⟨cat, hc, ?_⟩
      rw [header_mem_printCategory, groupByCategory_getD]
      exact ⟨hne, rfl⟩

/-- Witness of C7: on linux the checked entries `iOS Simulator` (mobile, not
applicable) and `Go` (core) give one table, for core, with the row of `Go`; no
mobile header is printed. -/
theorem printDependencyTable_grouping_witness :
    printDependencyTable "linux" [iosChecked, goChecked]
      = [Printed.header "Core Dependencies", Printed.row goChecked, Printed.footer] ∧
    List.Perm (printedRows (printDependencyTable "linux" [iosChecked, goChecked]))
      ([iosChecked, goChecked].filter (fun d => d.Platform == "all" || d.Platform == "linux")) :=
  ⟨by decide,
   (printDependencyTable_grouping "linux" [iosChecked, goChecked] (by decide)).2.2.1⟩

/-- C8 as stated fails: on `quietWorld`, where `go version` prints nothing, the
check pass leaves `Go` with Status `Installed` and an empty Version, which does
not contain `go1.16`; `checkCommonIssues` records no Go version warning for
that list. -/
theorem goVersionWarning_counterexample :
    checkPass quietWorld [] [goEntry]
      = (some [goBlank], [Event.lookPath "go", Event.spawn ["sh", "-c", "go version"] 0]) ∧
    ([goBlank].map (fun d => d.Name)).Nodup ∧
    goBlank.Name = "Go" ∧ goBlank.Status = "Installed" ∧
    Contains goBlank.Version "go1.16" = false ∧
    goVersionWarning ∉ (checkCommonIssues quietWorld [] [goBlank]).1.2 := by
  refine ⟨by decide, by decide, by decide, by decide, by decide, by decide⟩

/-- C8 amended: for every checked list with unique Names, `checkCommonIssues`
records the warning `Go version < 1.16 - WebAssembly builds not supported` if
and only if the entry named `Go` has Status `Installed` and its Version is
non-empty and does not contain `go1.16`. -/
theorem goVersionWarning_iff (w : World) (h : List Event) (deps : List Dependency)
    (hn : (deps.map (fun d => d.Name)).Nodup) :
    goVersionWarning ∈ (checkCommonIssues w h deps).1.2 ↔
      ∃ d ∈ deps, d.Name = "Go" ∧ d.Status = "Installed" ∧ d.Version ≠ "" ∧
        Contains d.Version "go1.16" = false := by
  rw [goVersionWarning_mem]
  constructor
  · rintro ⟨hne, hc⟩
    obtain ⟨d, hd, hname, hst, hv⟩ := goVersionOf_ne_empty deps hne
    exact ⟨d, hd, hname, hst, by rw [hv]; exact hne, by rw [hv]; exact hc⟩
  · rintro ⟨d, hd, hname, hst, hne, hc⟩
    rw [goVersionOf_unique deps hn d hd hname hst]
    exact ⟨hne, hc⟩

/-- Witness of C8 amended: the list `[Go, iOS Simulator]` checked on
`demoWorld`, where `Go` is `Installed` with the Version
`go version go1.21.0 linux/amd64`, gets the warning. -/
theorem goVersionWarning_iff_witness :
    ([goChecked, iosChecked].map (fun d => d.Name)).Nodup ∧
    goVersionWarning ∈ (checkCommonIssues demoWorld [] [goChecked, iosChecked]).1.2 :=
  ⟨by decide,
   (goVersionWarning_iff demoWorld [] [goChecked, iosChecked] (by decide)).2
     ⟨goChecked, by decide, by decide, by decide, by decide, by decide⟩⟩

/-- C9 as stated fails: on a linux host the catalog contains `iOS Simulator`,
whose Platform `darwin` is neither `all` nor `linux`, and the check pass marks
it `N/A`. -/
theorem getDependencies_platform_counterexample :
    iosEntry ∈ getDependencies "linux" ∧
    iosEntry.Platform ≠ "all" ∧ iosEntry.Platform ≠ "linux" ∧
    checkEntry demoWorld [] iosEntry = (some iosChecked, []) ∧
    iosChecked.Status = "N/A" := by
  refine ⟨by decide, by decide, by decide, by decide, by decide⟩

/-- C9 amended: for every host OS, every descriptor returned by
`getDependencies`, other than the three fixed entries `iOS Simulator`,
`GPU Acceleration` and `Display Server` and other than the entries appended by
the `darwin` case, has Platform `all` or the host OS value; the three fixed
entries are in the catalog of every host with the Platforms `darwin`, `linux`
and `linux`, so that on every host the check pass marks at least one catalog
entry `N/A`. -/
theorem getDependencies_platform (w : World) (h : List Event) :
    (∀ d ∈ getDependencies w.GOOS, d ∉ darwinDeps → d.Name ≠ "iOS Simulator" →
      d.Name ≠ "GPU Acceleration" → d.Name ≠ "Display Server" →
      d.Platform = "all" ∨ d.Platform = w.GOOS) ∧
    (∃ d ∈ getDependencies w.GOOS, d.Name = "iOS Simulator" ∧ d.Platform = "darwin") ∧
    (∃ d ∈ getDependencies w.GOOS, d.Name = "GPU Acceleration" ∧ d.Platform = "linux") ∧
    (∃ d ∈ getDependencies w.GOOS, d.Name = "Display Server" ∧ d.Platform = "linux") ∧
    ∃ out h2, checkPass w h (getDependencies w.GOOS) = (some out, h2) ∧
      ∃ o ∈ out, o.Status = "N/A" := by
  have hmobile : ∀ d ∈ mobileDeps, d ∈ getDependencies w.GOOS := fun d hd =>
    List.mem_append_left _ (List.mem_append_left _ (List.mem_append_right _ hd))
  have hperf : ∀ d ∈ performanceDeps, d ∈ getDependencies w.GOOS := fun d hd =>
    List.mem_append_right _ hd
  refine ⟨?_, ?_, ?_, ?_, ?_⟩
  · intro d hd hdarwin hios hgpu hdisplay
    unfold getDependencies at hd
    simp only [List.mem_append] at hd
    rcases hd with (((hd | hd) | hd) | hd) | hd
    · exact Or.inl ((by decide : ∀ d ∈ baseDeps, d.Platform = "all") d hd)
    · unfold platformDeps at hd
      split_ifs at hd with hw hda hl
      · rw [hw]
        exact Or.inr ((by decide : ∀ d ∈ windowsDeps, d.Platform = "windows") d hd)
      · exact absurd hd hdarwin
      · rw [hl]
        exact Or.inr ((by decide : ∀ d ∈ linuxDeps, d.Platform = "linux") d hd)
      · simp at hd
    · exact Or.inl ((by decide :
        ∀ d ∈ mobileDeps, d.Name ≠ "iOS Simulator" → d.Platform = "all") d hd hios)
    · exact Or.inl ((by decide : ∀ d ∈ webDeps, d.Platform = "all") d hd)
    · exact absurd hd (fun hm => (by decide : ∀ d ∈ performanceDeps,
        d.Name ≠ "GPU Acceleration" → d.Name ≠ "Display Server" → False) d hm hgpu hdisplay)
  · exact ⟨iosEntry, hmobile _ (by decide), rfl, rfl⟩
  · exact ⟨gpuEntry, hperf _ (by decide), rfl, rfl⟩
  · obtain ⟨d, hd, hn, hp⟩ := (by decide :
      ∃ d ∈ performanceDeps, d.Name = "Display Server" ∧ d.Platform = "linux")
    exact ⟨d, hperf d hd, hn, hp⟩
  · obtain ⟨out, h2, hp⟩ := checkPass_isSome w _
      (fun d hd => allEntries_fields d (getDependencies_subset w.GOOS d hd)) h
    obtain ⟨d, hd, hna⟩ := inapplicable_entry w.GOOS
    obtain ⟨o, ho, h0, h1, he⟩ := checkPass_forward w _ h h2 out hp d hd
    exact ⟨out, h2, hp, o, ho, ((checkEntry_spec w h0 h1 d o he).2.1 hna).1⟩

/-- Witness of C9 amended, on the linux host `demoWorld`: the entry `Fyne CLI`
is in the catalog, is none of the excepted entries, and has Platform `all`. -/
theorem getDependencies_platform_witness :
    fyneEntry ∈ getDependencies demoWorld.GOOS ∧
    (fyneEntry.Platform = "all" ∨ fyneEntry.Platform = demoWorld.GOOS) :=
  ⟨by decide,
   (getDependencies_platform demoWorld []).1 fyneEntry (by decide) (by decide) (by decide)
     (by decide) (by decide)⟩

/-- C10: for every host OS the list returned by `getDependencies` is non-empty
and contains an entry named `Go` and an entry named `Fyne CLI`, each with
Platform `all`, non-optional and platform-applicable; the check pass over the
catalog succeeds and gives each of the two the Status and Version returned by
`checkDependency` on its command (`go version`, then `fyne version`), and when
that Status is not `Installed` the diagnosis is FAILURE and lists the name. -/
theorem getDependencies_core (w : World) (h : List Event) :
    getDependencies w.GOOS ≠ [] ∧
    (∃ d ∈ getDependencies w.GOOS, d.Name = "Go" ∧ d.Platform = "all" ∧
      applicable w.GOOS d = true) ∧
    (∃ d ∈ getDependencies w.GOOS, d.Name = "Fyne CLI" ∧ d.Platform = "all" ∧
      applicable w.GOOS d = true) ∧
    ∃ out h2, checkPass w h (getDependencies w.GOOS) = (some out, h2) ∧
      (∃ o ∈ out, o.Name = "Go" ∧
        checkDependency w h "go version"
          = (some (o.Status, o.Version), historyAfter w h (getDependencies w.GOOS) 1) ∧
        (o.Status ≠ "Installed" →
          (diagnosis w.GOOS out).1 = false ∧ "Go" ∈ (diagnosis w.GOOS out).2)) ∧
      (∃ o ∈ out, o.Name = "Fyne CLI" ∧
        checkDependency w (historyAfter w h (getDependencies w.GOOS) 1) "fyne version"
          = (some (o.Status, o.Version), historyAfter w h (getDependencies w.GOOS) 2) ∧
        (o.Status ≠ "Installed" →
          (diagnosis w.GOOS out).1 = false ∧ "Fyne CLI" ∈ (diagnosis w.GOOS out).2)) := by
  have hgo : goEntry ∈ getDependencies w.GOOS :=
    List.mem_append_left _ (List.mem_append_left _ (List.mem_append_left _
      (List.mem_append_left _ (by decide))))
  have hfyne : fyneEntry ∈ getDependencies w.GOOS :=
    List.mem_append_left _ (List.mem_append_left _ (List.mem_append_left _
      (List.mem_append_left _ (by decide))))
  have hago : applicable w.GOOS goEntry = true := applicable_of_all _ _ rfl
  have hafyne : applicable w.GOOS fyneEntry = true := applicable_of_all _ _ rfl
  have h0 : (getDependencies w.GOOS)[0]? = some goEntry := rfl
  have h1 : (getDependencies w.GOOS)[1]? = some fyneEntry := rfl
  refine ⟨List.ne_nil_of_mem hgo, ⟨goEntry, hgo, rfl, rfl, hago⟩,
    ⟨fyneEntry, hfyne, rfl, rfl, hafyne⟩, ?_⟩
  obtain ⟨out, h2, hp⟩ := checkPass_isSome w _
    (fun d hd => allEntries_fields d (getDependencies_subset w.GOOS d hd)) h
  obtain ⟨hlen, hix⟩ := checkPass_indexed w _ h h2 out hp
  have hlen2 : 2 ≤ out.length := by
    rw [hlen]
    unfold getDependencies baseDeps
    simp
  refine ⟨out, h2, hp, ?_, ?_⟩
  · have ho : out[0]? = some (out[0]) := List.getElem?_eq_getElem (by omega)
    obtain ⟨hf, _, happ⟩ := hix 0 goEntry (out[0]) h0 ho
    have hmem : out[0] ∈ out := List.getElem_mem _
    have hname : (out[0]).Name = "Go" := (congrArg Dependency.Name hf : _)
    have hopt : (out[0]).Optional = false := (congrArg Dependency.Optional hf : _)
    have hplat : (out[0]).Platform = "all" := (congrArg Dependency.Platform hf : _)
    refine ⟨out[0], hmem, hname, happ hago, ?_⟩
    intro hst
    have := diagnosis_counts w.GOOS out (out[0]) hmem hopt (applicable_of_all _ _ hplat) hst
    rw [hname] at this
    exact this
  · have ho : out[1]? = some (out[1]) := List.getElem?_eq_getElem (by omega)
    obtain ⟨hf, _, happ⟩ := hix 1 fyneEntry (out[1]) h1 ho
    have hmem : out[1] ∈ out := List.getElem_mem _
    have hname : (out[1]).Name = "Fyne CLI" := (congrArg Dependency.Name hf : _)
    have hopt : (out[1]).Optional = false := (congrArg Dependency.Optional hf : _)
    have hplat : (out[1]).Platform = "all" := (congrArg Dependency.Platform hf : _)
    refine ⟨out[1], hmem, hname, happ hafyne, ?_⟩
    intro hst
    have := diagnosis_counts w.GOOS out (out[1]) hmem hopt (applicable_of_all _ _ hplat) hst
    rw [hname] at this
    exact this

/-- Witness of C10 on the linux host `demoWorld`, where `go` resolves and
`fyne` does not: the catalog is non-empty, and after the check pass the
diagnosis is FAILURE with `Fyne CLI` first in the missing list. -/
theorem getDependencies_core_witness :
    getDependencies demoWorld.GOOS ≠ [] ∧
    ((diagnosis demoWorld.GOOS
        ((checkPass demoWorld [] (getDependencies demoWorld.GOOS)).1.getD [])).1 = false ∧
      "Fyne CLI" ∈ (diagnosis demoWorld.GOOS
        ((checkPass demoWorld [] (getDependencies demoWorld.GOOS)).1.getD [])).2) :=
  ⟨(getDependencies_core demoWorld []).1, by decide, by decide⟩

/-- C11, the code at the failing input: the entries of the `windows` and
`linux` cases are platform-applicable on their host, but on the macOS host
`macWorld` (`runtime.GOOS` is `darwin`) the entries `Xcode CLI Tools` and
`C Compiler` of the `darwin` case, both non-optional, carry the Platform
`macos` and are not applicable: the check pass marks them `N/A` without any
interaction (no call of `checkDependency`), the report has no row for them,
and the diagnosis, on a host where nothing is installed, lists only `Go` and
`Fyne CLI` as missing. -/
theorem darwin_entries_not_applicable :
    (∀ d ∈ platformDeps "windows", applicable "windows" d = true) ∧
    (∀ d ∈ platformDeps "linux", applicable "linux" d = true) ∧
    platformDeps macWorld.GOOS = darwinDeps ∧
    darwinDeps.map (fun d => d.Name) = ["Xcode CLI Tools", "C Compiler"] ∧
    (∀ d ∈ darwinDeps, d ∈ getDependencies macWorld.GOOS ∧ d.Optional = false ∧
      d.Platform = "macos" ∧ applicable macWorld.GOOS d = false) ∧
    (checkPass macWorld [] darwinDeps).2 = [] ∧
    ((checkPass macWorld [] darwinDeps).1.getD []).map (fun d => (d.Name, d.Status))
      = [("Xcode CLI Tools", "N/A"), ("C Compiler", "N/A")] ∧
    (printedRows (printDependencyTable macWorld.GOOS
        ((checkPass macWorld [] (getDependencies macWorld.GOOS)).1.getD []))).map
          (fun d => d.Name)
      = ["Go", "Fyne CLI", "Fyne-cross", "Android SDK", "Android NDK", "Android Studio",
          "iOS Simulator", "WebAssembly Support", "Node.js"] ∧
    diagnosis macWorld.GOOS
        ((checkPass macWorld [] (getDependencies macWorld.GOOS)).1.getD [])
      = (false, ["Go", "Fyne CLI"]) := by
  refine ⟨by decide, by decide, by decide, by decide, by decide, by decide, by decide,
    by decide, by decide⟩

end FyneDoctor
